import Mathlib

/-!
# Verification of pymodbus `bit_read_message.py`

A shallow embedding of the bit-reading Modbus request/response messages
(`ReadBitsRequestBase`, `ReadBitsResponseBase`, `ReadCoilsRequest`,
`ReadDiscreteInputsRequest` and their responses), together with proofs of
the specification's testable properties.

Python-specific behaviour is embedded explicitly:
* byte strings are `List Nat` (each element one byte);
* an attribute that may be unassigned, hold `None`, or hold a value is an
  `Option (Option _)`: the outer `none` means the attribute was never
  assigned, so reading it raises `AttributeError`;
* operations that can raise (`TypeError`, `IndexError`, `struct.error`)
  return `Option`, with `none` for the raised exception;
* property reads that lazily fill a cache return the read value together
  with the updated object state.
-/

namespace PyModbus

/-! ## Bit codec (`pack_bitstring` / `unpack_bitstring`) -/

/-- Value of up to 8 bits as one byte, least-significant bit first:
bit `i` of the list contributes `2 ^ i`. -/
def byteOfBits (bits : List Bool) : Nat :=
  bits.foldr (fun b acc => (if b then 1 else 0) + 2 * acc) 0

/-- Modelled from the spec: `pack_bitstring` (in `pymodbus/utilities.py`,
which is not part of the sources in scope) produces `ceil(len(bits)/8)`
bytes, bit `i` going to byte `i / 8` at shift `i % 8`, LSB-first, with the
unused high bits of the final byte zero. -/
def pack_bitstring : List Bool → List Nat
  | [] => []
  | b0 :: b1 :: b2 :: b3 :: b4 :: b5 :: b6 :: b7 :: rest =>
      byteOfBits [b0, b1, b2, b3, b4, b5, b6, b7] :: pack_bitstring rest
  | bits => [byteOfBits bits]

/-- The low `n` bits of a byte value, least-significant first. -/
def bitsOfByteAux : Nat → Nat → List Bool
  | 0, _ => []
  | n + 1, v => (v % 2 == 1) :: bitsOfByteAux n (v / 2)

/-- Modelled from the spec: `unpack_bitstring` (in `pymodbus/utilities.py`,
which is not part of the sources in scope) produces exactly `len(raw) * 8`
booleans, each byte contributing its 8 bits LSB-first; it never truncates
to an externally known logical count. -/
def unpack_bitstring : List Nat → List Bool
  | [] => []
  | b :: rest => bitsOfByteAux 8 b ++ unpack_bitstring rest

theorem bitsOfByteAux_zero (n : Nat) : bitsOfByteAux n 0 = List.replicate n false := by
  induction n with
  | zero => rfl
  | succ m ih => simp [bitsOfByteAux, ih, List.replicate_succ]

theorem bitsOfByteAux_byteOfBits (bits : List Bool) (n : Nat) (h : bits.length ≤ n) :
    bitsOfByteAux n (byteOfBits bits) = bits ++ List.replicate (n - bits.length) false := by
  induction bits generalizing n with
  | nil => simp [byteOfBits, bitsOfByteAux_zero]
  | cons b rest ih =>
    cases n with
    | zero => simp at h
    | succ m =>
      have hrest : rest.length ≤ m := by simpa using h
      cases b with
      | false =>
        have hv : byteOfBits (false :: rest) = 2 * byteOfBits rest := by
          simp [byteOfBits]
        have h1 : (2 * byteOfBits rest) % 2 = 0 := by omega
        have h2 : (2 * byteOfBits rest) / 2 = byteOfBits rest := by omega
        rw [hv]
        simp only [bitsOfByteAux]
        rw [h1, h2, ih m hrest]
        simp [Nat.succ_sub_succ]
      | true =>
        have hv : byteOfBits (true :: rest) = 1 + 2 * byteOfBits rest := by
          simp [byteOfBits]
        have h1 : (1 + 2 * byteOfBits rest) % 2 = 1 := by omega
        have h2 : (1 + 2 * byteOfBits rest) / 2 = byteOfBits rest := by omega
        rw [hv]
        simp only [bitsOfByteAux]
        rw [h1, h2, ih m hrest]
        simp [Nat.succ_sub_succ]

/-- Round trip of the bit codec: unpacking a packed bit list gives the
original bits padded with `false` up to the next multiple of 8. -/
theorem unpack_pack (bits : List Bool) :
    unpack_bitstring (pack_bitstring bits) =
      bits ++ List.replicate (8 * ((bits.length + 7) / 8) - bits.length) false := by
  induction bits using pack_bitstring.induct with
  | case1 => rfl
  | case2 b0 b1 b2 b3 b4 b5 b6 b7 rest ih =>
    simp only [pack_bitstring, unpack_bitstring,
      bitsOfByteAux_byteOfBits [b0, b1, b2, b3, b4, b5, b6, b7] 8 (by simp), ih]
    have hlen : ∀ k : Nat,
        8 * ((k + 7) / 8) - k = 8 * ((k + 8 + 7) / 8) - (k + 8) := by
      intro k; omega
    simp only [List.length_cons]
    rw [← hlen rest.length]
    simp [List.append_assoc]
  | case3 bits h1 h2 =>
    have hle : bits.length ≤ 8 := by
      rcases bits with _ | ⟨a0, _ | ⟨a1, _ | ⟨a2, _ | ⟨a3, _ | ⟨a4, _ | ⟨a5, _ | ⟨a6, _ | ⟨a7, tl⟩⟩⟩⟩⟩⟩⟩⟩
      · simp
      · simp
      · simp
      · simp
      · simp
      · simp
      · simp
      · simp
      · exact absurd rfl (h2 a0 a1 a2 a3 a4 a5 a6 a7 tl)
    have hne : bits ≠ [] := h1
    have hpos : 1 ≤ bits.length := by
      cases bits with
      | nil => exact absurd rfl hne
      | cons a tl => simp
    have hpack : pack_bitstring bits = [byteOfBits bits] := by
      rcases bits with _ | ⟨a0, _ | ⟨a1, _ | ⟨a2, _ | ⟨a3, _ | ⟨a4, _ | ⟨a5, _ | ⟨a6, _ | ⟨a7, tl⟩⟩⟩⟩⟩⟩⟩⟩
      · exact absurd rfl hne
      · rfl
      · rfl
      · rfl
      · rfl
      · rfl
      · rfl
      · rfl
      · exact absurd rfl (h2 a0 a1 a2 a3 a4 a5 a6 a7 tl)
    rw [hpack]
    simp only [unpack_bitstring, List.append_nil,
      bitsOfByteAux_byteOfBits bits 8 hle]
    have : 8 - bits.length = 8 * ((bits.length + 7) / 8) - bits.length := by omega
    rw [this]

/-- Length of the round-tripped bit list: always the next multiple of 8. -/
theorem unpack_pack_length (bits : List Bool) :
    (unpack_bitstring (pack_bitstring bits)).length = 8 * ((bits.length + 7) / 8) := by
  rw [unpack_pack]
  simp only [List.length_append, List.length_replicate]
  omega

/-- The codec round trip is the identity exactly when the length is a
multiple of 8. -/
theorem unpack_pack_strict_iff (bits : List Bool) :
    unpack_bitstring (pack_bitstring bits) = bits ↔ bits.length % 8 = 0 := by
  constructor
  · intro h
    have hl := unpack_pack_length bits
    rw [h] at hl
    omega
  · intro h
    rw [unpack_pack]
    have : 8 * ((bits.length + 7) / 8) - bits.length = 0 := by omega
    simp [this]

/-! ## Python value model for the response constructor

`ReadBitsResponseBase.__init__` receives either `None`, a list whose
elements are booleans, integers or other objects (a float stands for the
unsupported kinds the spec names), or a byte string.  Python 2 semantics:
indexing a byte string yields a 1-character string, so a byte string's
first element passes the `isinstance(values[0], (bytes, str))` test and
fails the `isinstance(values[0], (bool, int))` test. -/

/-- An element of a `values` list passed to the response constructor. -/
inductive PyElem where
  | pybool (b : Bool)
  | pyint (i : Int)
  | pyfloat (nonzero : Bool)
deriving DecidableEq, Repr

/-- Python truthiness `bool(v)` of a list element (for a float only its
being nonzero matters). -/
def PyElem.toBool : PyElem → Bool
  | .pybool b => b
  | .pyint i => decide (i ≠ 0)
  | .pyfloat nz => nz

/-- `isinstance(v, (bool, int))`. -/
def PyElem.isBoolOrInt : PyElem → Bool
  | .pybool _ => true
  | .pyint _ => true
  | .pyfloat _ => false

/-- The `values` argument of the response constructor. -/
inductive PyValues where
  | pynone
  | pylist (l : List PyElem)
  | pybytes (s : List Nat)
deriving DecidableEq, Repr

/-! ## `ReadBitsResponseBase` -/

/-- State of a `ReadBitsResponseBase` instance: the two lazy representation
caches and the byte-count cache.  `_byte_count = none` means the attribute
was never assigned (reading it raises `AttributeError`);
`some none` models the attribute holding Python `None`. -/
structure ReadBitsResponseBase where
  _bits : Option (List Bool)
  _raw_bits : Option (List Nat)
  _byte_count : Option (Option Nat)
deriving DecidableEq, Repr

namespace ReadBitsResponseBase

/-- `__init__(self, values)`.  Sets `_bits`/`_raw_bits` to `None`, then
discriminates on the type of `values[0]` when `values` is truthy; an
unsupported first-element type raises `TypeError` (`none`).  The
`_byte_count` attribute is never assigned here.
Modelled from the spec: the base `ModbusResponse.__init__` (in
`pymodbus/pdu.py`, not part of the sources in scope) is treated as an
external collaborator that initializes only transaction/protocol metadata
and touches none of the representation or byte-count fields. -/
def ofValues : PyValues → Option ReadBitsResponseBase
  | .pynone => some ⟨none, none, none⟩
  | .pylist [] => some ⟨none, none, none⟩
  | .pybytes [] => some ⟨none, none, none⟩
  | .pylist (e :: rest) =>
      if e.isBoolOrInt then
        some ⟨some ((e :: rest).map PyElem.toBool), none, none⟩
      else
        none
  | .pybytes (b :: bs) => some ⟨none, some (b :: bs), none⟩

/-- The `bits` property getter: lazily unpacks `_raw_bits or b""` when the
bits cache is `None`.  Returns the value and the updated instance. -/
def bits_get (s : ReadBitsResponseBase) : List Bool × ReadBitsResponseBase :=
  match s._bits with
  | some bs => (bs, s)
  | none =>
      let bs := unpack_bitstring (s._raw_bits.getD [])
      (bs, { s with _bits := some bs })

/-- The `bits` property setter: stores the new bits, clears `_raw_bits`
and `_byte_count`. -/
def bits_set (s : ReadBitsResponseBase) (newbits : List Bool) : ReadBitsResponseBase :=
  { s with _bits := some newbits, _raw_bits := none, _byte_count := some none }

/-- The `raw_bits` property getter: lazily packs `_bits or []` when the
raw cache is `None`.  Returns the value and the updated instance. -/
def raw_bits_get (s : ReadBitsResponseBase) : List Nat × ReadBitsResponseBase :=
  match s._raw_bits with
  | some raw => (raw, s)
  | none =>
      let raw := pack_bitstring (s._bits.getD [])
      (raw, { s with _raw_bits := some raw })

/-- The `raw_bits` property setter: stores the new raw bytes, clears
`_bits` and `_byte_count`. -/
def raw_bits_set (s : ReadBitsResponseBase) (newraw : List Nat) : ReadBitsResponseBase :=
  { s with _raw_bits := some newraw, _bits := none, _byte_count := some none }

/-- The `byte_count` property getter.  Reading the `_byte_count` attribute
on an instance where it was never assigned raises `AttributeError`
(`none`); if it holds `None` it is recomputed as `len(self.raw_bits)`
(which may itself fill the raw cache). -/
def byte_count_get (s : ReadBitsResponseBase) : Option (Nat × ReadBitsResponseBase) :=
  match s._byte_count with
  | none => none
  | some (some n) => some (n, s)
  | some none =>
      let p := raw_bits_get s
      some (p.1.length, { p.2 with _byte_count := some (some p.1.length) })

/-- `encode(self)`: one byte holding `len(self.raw_bits)` followed by the
raw bytes; `struct.pack(">B", n)` raises (`none`) when `n > 255`. -/
def encode (s : ReadBitsResponseBase) : Option (List Nat × ReadBitsResponseBase) :=
  let p := raw_bits_get s
  if p.1.length ≤ 255 then some (p.1.length :: p.1, p.2) else none

/-- `decode(self, data)`: `_byte_count` is set from the first byte of
`data` (indexing an empty byte string raises, `none`), `_raw_bits` gets
the remaining bytes, and the bits cache is cleared. -/
def decode (s : ReadBitsResponseBase) (data : List Nat) : Option ReadBitsResponseBase :=
  match data with
  | [] => none
  | b :: rest => some { s with _byte_count := some (some b), _raw_bits := some rest, _bits := none }

/-- `setBit(self, address, value)`: materializes the bits view, writes
`value != 0` at `address` (`IndexError`, i.e. `none`, when out of range)
and clears the raw cache.  `_byte_count` is not touched. -/
def setBit (s : ReadBitsResponseBase) (address : Nat) (value : Int) : Option ReadBitsResponseBase :=
  let p := bits_get s
  if address < p.1.length then
    some { p.2 with _bits := some (p.1.set address (decide (value ≠ 0))), _raw_bits := none }
  else
    none

/-- `resetBit(self, address)`: `setBit(address, 0)` followed by clearing
the raw cache again. -/
def resetBit (s : ReadBitsResponseBase) (address : Nat) : Option ReadBitsResponseBase :=
  (setBit s address 0).map (fun s' => { s' with _raw_bits := none })

/-- `getBit(self, address)`: materializes the bits view and reads index
`address` (`IndexError`, i.e. `none`, when out of range). -/
def getBit (s : ReadBitsResponseBase) (address : Nat) : Option (Bool × ReadBitsResponseBase) :=
  let p := bits_get s
  if h : address < p.1.length then some (p.1.get ⟨address, h⟩, p.2) else none

end ReadBitsResponseBase

/-! ## `ReadBitsRequestBase` -/

/-- State of a `ReadBitsRequestBase` instance: start address and bit
count, arbitrary Python integers. -/
structure ReadBitsRequestBase where
  address : Int
  count : Int
deriving DecidableEq, Repr

namespace ReadBitsRequestBase

/-- `encode(self)`: `struct.pack(">HH", address, count)` — two big-endian
16-bit fields, 4 bytes; raises `struct.error` (`none`) when a field is
outside `[0, 65535]`. -/
def encode (r : ReadBitsRequestBase) : Option (List Nat) :=
  if 0 ≤ r.address ∧ r.address ≤ 65535 ∧ 0 ≤ r.count ∧ r.count ≤ 65535 then
    some [r.address.toNat / 256, r.address.toNat % 256,
          r.count.toNat / 256, r.count.toNat % 256]
  else
    none

/-- `decode(self, data)`: `struct.unpack(">HH", data)` — requires exactly
4 bytes (`struct.error`, i.e. `none`, otherwise) and overwrites both
fields of the receiving request. -/
def decode (_r : ReadBitsRequestBase) (data : List Nat) : Option ReadBitsRequestBase :=
  match data with
  | [a1, a0, c1, c0] => some ⟨((a1 * 256 + a0 : Nat) : Int), ((c1 * 256 + c0 : Nat) : Int)⟩
  | _ => none

end ReadBitsRequestBase

/-! ## Execution against a datastore -/

/-- The external datastore context consumed by `execute`: range
validation and value retrieval, both keyed by function code, address and
count. -/
structure ModbusSlaveContext where
  validate : Nat → Int → Int → Bool
  getValues : Nat → Int → Int → PyValues

/-- The exception kinds produced by this message family
(`ModbusExceptions`, external catalog). -/
inductive MError where
  | illegalValue
  | illegalAddress
deriving DecidableEq, Repr

/-- Outcome of `execute`: a normal response carrying the variant's
function code, an exception response (`doException`), or a propagated
`TypeError` from the response constructor. -/
inductive ExecuteResult where
  | exceptionResponse (kind : MError)
  | response (fc : Nat) (resp : ReadBitsResponseBase)
  | typeError
deriving DecidableEq, Repr

/-- `ReadCoilsRequest.execute(self, context)` (function code 1): count
range check first, then datastore validation, then fetch and wrap in a
`ReadCoilsResponse`. -/
def ReadCoilsRequest.execute (r : ReadBitsRequestBase) (context : ModbusSlaveContext) : ExecuteResult :=
  if ¬ (1 ≤ r.count ∧ r.count ≤ 2000) then
    .exceptionResponse .illegalValue
  else if ¬ (context.validate 1 r.address r.count = true) then
    .exceptionResponse .illegalAddress
  else
    match ReadBitsResponseBase.ofValues (context.getValues 1 r.address r.count) with
    | some resp => .response 1 resp
    | none => .typeError

/-- `ReadDiscreteInputsRequest.execute(self, context)` (function code 2):
identical to the coils variant apart from the function code and response
class. -/
def ReadDiscreteInputsRequest.execute (r : ReadBitsRequestBase) (context : ModbusSlaveContext) : ExecuteResult :=
  if ¬ (1 ≤ r.count ∧ r.count ≤ 2000) then
    .exceptionResponse .illegalValue
  else if ¬ (context.validate 2 r.address r.count = true) then
    .exceptionResponse .illegalAddress
  else
    match ReadBitsResponseBase.ofValues (context.getValues 2 r.address r.count) with
    | some resp => .response 2 resp
    | none => .typeError

/-! ## Helper lemmas about the lazy accessors -/

theorem bits_get_of_some (s : ReadBitsResponseBase) (bs : List Bool) (h : s._bits = some bs) :
    ReadBitsResponseBase.bits_get s = (bs, s) := by
  simp [ReadBitsResponseBase.bits_get, h]

theorem bits_get_snd_bits (s : ReadBitsResponseBase) :
    (ReadBitsResponseBase.bits_get s).2._bits = some (ReadBitsResponseBase.bits_get s).1 := by
  cases h : s._bits <;> simp [ReadBitsResponseBase.bits_get, h]

theorem bits_get_snd_byte_count (s : ReadBitsResponseBase) :
    (ReadBitsResponseBase.bits_get s).2._byte_count = s._byte_count := by
  cases h : s._bits <;> simp [ReadBitsResponseBase.bits_get, h]

theorem bits_get_snd_fst (s : ReadBitsResponseBase) :
    ReadBitsResponseBase.bits_get (ReadBitsResponseBase.bits_get s).2 =
      ((ReadBitsResponseBase.bits_get s).1, (ReadBitsResponseBase.bits_get s).2) := by
  exact bits_get_of_some _ _ (bits_get_snd_bits s)

/-! ## Claim theorems -/

/-- C4: for every finite boolean sequence `bits`, `unpack (pack bits)` is
`bits` padded with `false` to length `8 * ceil(len(bits)/8)`; the round
trip is a strict inverse exactly when the length is a multiple of 8; and
concretely `pack [true, false, true] = [0x05]` with
`unpack [0x05] = [true, false, true, false, false, false, false, false]`. -/
theorem unpack_pack_contract :
    (∀ bits : List Bool,
        unpack_bitstring (pack_bitstring bits) =
          bits ++ List.replicate (8 * ((bits.length + 7) / 8) - bits.length) false) ∧
    (∀ bits : List Bool,
        (unpack_bitstring (pack_bitstring bits)).length = 8 * ((bits.length + 7) / 8)) ∧
    (∀ bits : List Bool,
        unpack_bitstring (pack_bitstring bits) = bits ↔ bits.length % 8 = 0) ∧
    pack_bitstring [true, false, true] = [5] ∧
    unpack_bitstring [5] = [true, false, true, false, false, false, false, false] :=
  ⟨unpack_pack, unpack_pack_length, unpack_pack_strict_iff, by decide, by decide⟩

/-- C5: for every address in `[0, 65535]` and count in `[1, 2000]`, the
request encodes to exactly 4 bytes, big-endian address then big-endian
count, and decoding that encoding on any receiving request restores the
same address and count. -/
theorem request_encode_decode_roundtrip :
    ∀ (r₀ r : ReadBitsRequestBase),
      0 ≤ r₀.address → r₀.address ≤ 65535 → 1 ≤ r₀.count → r₀.count ≤ 2000 →
      ∃ data : List Nat,
        r₀.encode = some data ∧
        data.length = 4 ∧
        data = [r₀.address.toNat / 256, r₀.address.toNat % 256,
                r₀.count.toNat / 256, r₀.count.toNat % 256] ∧
        (∀ x ∈ data, x < 256) ∧
        r.decode data = some r₀ := by
  intro r₀ r h0 h1 h2 h3
  refine ⟨[r₀.address.toNat / 256, r₀.address.toNat % 256,
           r₀.count.toNat / 256, r₀.count.toNat % 256], ?_, rfl, rfl, ?_, ?_⟩
  · simp only [ReadBitsRequestBase.encode]
    rw [if_pos ⟨h0, h1, by omega, by omega⟩]
  · intro x hx
    simp only [List.mem_cons, List.mem_singleton, List.not_mem_nil, or_false] at hx
    rcases hx with h | h | h | h <;> subst h <;> omega
  · simp only [ReadBitsRequestBase.decode, Option.some.injEq]
    have ha : ((r₀.address.toNat / 256 * 256 + r₀.address.toNat % 256 : Nat) : Int) =
        r₀.address := by omega
    have hc : ((r₀.count.toNat / 256 * 256 + r₀.count.toNat % 256 : Nat) : Int) =
        r₀.count := by omega
    cases r₀ with
    | mk a c =>
      simp only [ReadBitsRequestBase.mk.injEq]
      exact ⟨ha, hc⟩

/-- C5 witness: concrete round trip at address 258, count 3. -/
theorem request_encode_decode_roundtrip_witness :
    ∃ data : List Nat,
      ReadBitsRequestBase.encode ⟨258, 3⟩ = some data ∧
      data.length = 4 ∧
      data = [(258 : Int).toNat / 256, (258 : Int).toNat % 256,
              (3 : Int).toNat / 256, (3 : Int).toNat % 256] ∧
      (∀ x ∈ data, x < 256) ∧
      ReadBitsRequestBase.decode ⟨0, 0⟩ data = some ⟨258, 3⟩ :=
  request_encode_decode_roundtrip ⟨258, 3⟩ ⟨0, 0⟩ (by decide) (by decide) (by decide) (by decide)

/-- C6: any count outside `[1, 2000]` makes both request variants return
an `IllegalValue` exception response, for every address and every
datastore context (the datastore is never consulted). -/
theorem count_out_of_range_illegal_value :
    ∀ (r : ReadBitsRequestBase) (context : ModbusSlaveContext),
      (r.count < 1 ∨ 2000 < r.count) →
      ReadCoilsRequest.execute r context = .exceptionResponse .illegalValue ∧
      ReadDiscreteInputsRequest.execute r context = .exceptionResponse .illegalValue := by
  intro r context h
  have hc : ¬ (1 ≤ r.count ∧ r.count ≤ 2000) := by omega
  constructor
  · unfold ReadCoilsRequest.execute
    rw [if_pos hc]
  · unfold ReadDiscreteInputsRequest.execute
    rw [if_pos hc]

/-- C6 witness: count 0 against a datastore accepting everything. -/
theorem count_out_of_range_illegal_value_witness :
    ReadCoilsRequest.execute ⟨0, 0⟩ ⟨fun _ _ _ => true, fun _ _ _ => .pynone⟩ =
      .exceptionResponse .illegalValue ∧
    ReadDiscreteInputsRequest.execute ⟨0, 0⟩ ⟨fun _ _ _ => true, fun _ _ _ => .pynone⟩ =
      .exceptionResponse .illegalValue :=
  count_out_of_range_illegal_value ⟨0, 0⟩ _ (by decide)

/-- C3 counterexample: with count 0 and a datastore whose `validate`
always returns false, `execute` returns `IllegalValue`, not
`IllegalAddress` — the count check runs first, so the claimed outcome
does not hold for invalid counts. -/
theorem validate_false_illegal_address_counterexample :
    ReadCoilsRequest.execute ⟨0, 0⟩ ⟨fun _ _ _ => false, fun _ _ _ => .pynone⟩ =
      .exceptionResponse .illegalValue ∧
    ExecuteResult.exceptionResponse .illegalValue ≠
      ExecuteResult.exceptionResponse .illegalAddress := by
  exact ⟨by decide, by decide⟩

/-- C3 amended: when the count is within `[1, 2000]` and the datastore's
`validate` returns false for the variant's function code, both request
variants return an `IllegalAddress` exception response; an out-of-range
count instead short-circuits to `IllegalValue` before the datastore is
consulted. -/
theorem validate_false_illegal_address :
    ∀ (r : ReadBitsRequestBase) (context : ModbusSlaveContext),
      1 ≤ r.count → r.count ≤ 2000 →
      context.validate 1 r.address r.count = false →
      context.validate 2 r.address r.count = false →
      ReadCoilsRequest.execute r context = .exceptionResponse .illegalAddress ∧
      ReadDiscreteInputsRequest.execute r context = .exceptionResponse .illegalAddress := by
  intro r context h1 h2 hv1 hv2
  have hc : ¬ ¬ (1 ≤ r.count ∧ r.count ≤ 2000) := by omega
  constructor
  · unfold ReadCoilsRequest.execute
    rw [if_neg hc, hv1]
    simp
  · unfold ReadDiscreteInputsRequest.execute
    rw [if_neg hc, hv2]
    simp

/-- C3 amended witness: count 1 against a datastore rejecting every
range. -/
theorem validate_false_illegal_address_witness :
    ReadCoilsRequest.execute ⟨0, 1⟩ ⟨fun _ _ _ => false, fun _ _ _ => .pynone⟩ =
      .exceptionResponse .illegalAddress ∧
    ReadDiscreteInputsRequest.execute ⟨0, 1⟩ ⟨fun _ _ _ => false, fun _ _ _ => .pynone⟩ =
      .exceptionResponse .illegalAddress :=
  validate_false_illegal_address ⟨0, 1⟩ _ (by decide) (by decide) (by decide) (by decide)

/-- C1 counterexample: after `decode(b"\x05\x01")` the declared byte-count
byte is 5 and is what `byte_count` returns, while `get_raw()` has length
1 — `byte_count` is not independent of the declared byte-count byte. -/
theorem byte_count_after_decode_counterexample :
    ReadBitsResponseBase.decode ⟨none, none, none⟩ [5, 1] =
      some ⟨none, some [1], some (some 5)⟩ ∧
    ReadBitsResponseBase.byte_count_get ⟨none, some [1], some (some 5)⟩ =
      some (5, ⟨none, some [1], some (some 5)⟩) ∧
    (ReadBitsResponseBase.raw_bits_get ⟨none, some [1], some (some 5)⟩).1.length = 1 ∧
    (5 : Nat) ≠ 1 := by
  exact ⟨by decide, by decide, by decide, by decide⟩

/-- C1 amended: after a `bits` or `raw_bits` assignment the next
`byte_count` access returns exactly `len(get_raw())`; after `decode(data)`
it returns the byte-count byte declared in `data` (which need not equal
`len(get_raw())`); on a freshly constructed instance the byte-count
attribute is undefined and the access fails (see C10). -/
theorem byte_count_tracks_raw_after_set :
    ∀ (s : ReadBitsResponseBase) (nb : List Bool) (nr : List Nat) (b : Nat)
      (rest : List Nat) (s' : ReadBitsResponseBase),
      ReadBitsResponseBase.decode s (b :: rest) = some s' →
      (∃ t, ReadBitsResponseBase.byte_count_get (ReadBitsResponseBase.bits_set s nb) =
        some ((ReadBitsResponseBase.raw_bits_get (ReadBitsResponseBase.bits_set s nb)).1.length,
          t)) ∧
      (∃ t, ReadBitsResponseBase.byte_count_get (ReadBitsResponseBase.raw_bits_set s nr) =
        some ((ReadBitsResponseBase.raw_bits_get (ReadBitsResponseBase.raw_bits_set s nr)).1.length,
          t)) ∧
      ReadBitsResponseBase.byte_count_get s' = some (b, s') ∧
      (ReadBitsResponseBase.raw_bits_get s').1 = rest := by
  intro s nb nr b rest s' hdec
  simp only [ReadBitsResponseBase.decode, Option.some.injEq] at hdec
  subst hdec
  refine ⟨⟨_, rfl⟩, ⟨_, rfl⟩, rfl, rfl⟩

/-- C1 amended witness: concrete instance exercising the setter and
decode cases. -/
theorem byte_count_tracks_raw_after_set_witness :
    (∃ t, ReadBitsResponseBase.byte_count_get
        (ReadBitsResponseBase.bits_set ⟨none, none, none⟩ [true]) =
      some ((ReadBitsResponseBase.raw_bits_get
        (ReadBitsResponseBase.bits_set ⟨none, none, none⟩ [true])).1.length, t)) ∧
    (∃ t, ReadBitsResponseBase.byte_count_get
        (ReadBitsResponseBase.raw_bits_set ⟨none, none, none⟩ [7, 7]) =
      some ((ReadBitsResponseBase.raw_bits_get
        (ReadBitsResponseBase.raw_bits_set ⟨none, none, none⟩ [7, 7])).1.length, t)) ∧
    ReadBitsResponseBase.byte_count_get ⟨none, some [1], some (some 5)⟩ =
      some (5, ⟨none, some [1], some (some 5)⟩) ∧
    (ReadBitsResponseBase.raw_bits_get ⟨none, some [1], some (some 5)⟩).1 = [1] :=
  byte_count_tracks_raw_after_set ⟨none, none, none⟩ [true] [7, 7] 5 [1]
    ⟨none, some [1], some (some 5)⟩ (by decide)

/-- C2 counterexample: reach `_byte_count = 5` via `decode(b"\x05\x01")`,
then `setBit(0, 1)`; the next `byte_count` read still returns the stale 5
while the re-packed raw bytes have length 1 — `setBit` does not
invalidate the cached byte count. -/
theorem set_bit_stale_byte_count_counterexample :
    ReadBitsResponseBase.decode ⟨none, none, none⟩ [5, 1] =
      some ⟨none, some [1], some (some 5)⟩ ∧
    ReadBitsResponseBase.setBit ⟨none, some [1], some (some 5)⟩ 0 1 =
      some ⟨some [true, false, false, false, false, false, false, false], none, some (some 5)⟩ ∧
    ReadBitsResponseBase.byte_count_get
        ⟨some [true, false, false, false, false, false, false, false], none, some (some 5)⟩ =
      some (5,
        ⟨some [true, false, false, false, false, false, false, false], none, some (some 5)⟩) ∧
    (ReadBitsResponseBase.raw_bits_get
        ⟨some [true, false, false, false, false, false, false, false], none,
          some (some 5)⟩).1.length = 1 ∧
    (5 : Nat) ≠ 1 := by
  exact ⟨by decide, by decide, by decide, by decide, by decide⟩

/-- C2 amended: assigning the `bits` view or the `raw_bits` view
invalidates both the cached opposite representation and the cached byte
count; `setBit` and `resetBit` invalidate only the cached raw
representation and leave the byte-count cache exactly as it was. -/
theorem mutation_invalidation :
    ∀ (s : ReadBitsResponseBase) (nb : List Bool) (nr : List Nat) (i : Nat) (v : Int)
      (s' s'' : ReadBitsResponseBase),
      ReadBitsResponseBase.setBit s i v = some s' →
      ReadBitsResponseBase.resetBit s i = some s'' →
      (ReadBitsResponseBase.bits_set s nb)._raw_bits = none ∧
      (ReadBitsResponseBase.bits_set s nb)._byte_count = some none ∧
      (ReadBitsResponseBase.raw_bits_set s nr)._bits = none ∧
      (ReadBitsResponseBase.raw_bits_set s nr)._byte_count = some none ∧
      s'._raw_bits = none ∧ s'._byte_count = s._byte_count ∧
      s''._raw_bits = none ∧ s''._byte_count = s._byte_count := by
  intro s nb nr i v s' s'' hset hreset
  refine ⟨rfl, rfl, rfl, rfl, ?_⟩
  simp only [ReadBitsResponseBase.setBit] at hset
  simp only [ReadBitsResponseBase.resetBit, ReadBitsResponseBase.setBit, Option.map] at hreset
  by_cases hi : i < (ReadBitsResponseBase.bits_get s).1.length
  · rw [if_pos hi] at hset hreset
    simp only [Option.some.injEq] at hset
    simp only [Option.map_some, Option.some.injEq] at hreset
    subst hset
    subst hreset
    exact ⟨rfl, bits_get_snd_byte_count s, rfl, bits_get_snd_byte_count s⟩
  · rw [if_neg hi] at hset
    exact absurd hset (by simp)

/-- C2 amended witness: a two-bit instance with a previously cached byte
count 9, mutated at index 0. -/
theorem mutation_invalidation_witness :
    (ReadBitsResponseBase.bits_set ⟨some [true, true], none, some (some 9)⟩ [false])._raw_bits =
      none ∧
    (ReadBitsResponseBase.bits_set ⟨some [true, true], none, some (some 9)⟩
        [false])._byte_count = some none ∧
    (ReadBitsResponseBase.raw_bits_set ⟨some [true, true], none, some (some 9)⟩ [3])._bits =
      none ∧
    (ReadBitsResponseBase.raw_bits_set ⟨some [true, true], none, some (some 9)⟩
        [3])._byte_count = some none ∧
    (⟨some [true, true], none, some (some 9)⟩ : ReadBitsResponseBase)._raw_bits = none ∧
    (⟨some [true, true], none, some (some 9)⟩ : ReadBitsResponseBase)._byte_count =
      (⟨some [true, true], none, some (some 9)⟩ : ReadBitsResponseBase)._byte_count ∧
    (⟨some [false, true], none, some (some 9)⟩ : ReadBitsResponseBase)._raw_bits = none ∧
    (⟨some [false, true], none, some (some 9)⟩ : ReadBitsResponseBase)._byte_count =
      (⟨some [true, true], none, some (some 9)⟩ : ReadBitsResponseBase)._byte_count :=
  mutation_invalidation ⟨some [true, true], none, some (some 9)⟩ [false] [3] 0 1
    ⟨some [true, true], none, some (some 9)⟩
    ⟨some [false, true], none, some (some 9)⟩ (by decide) (by decide)

/-- C7: for every bits-view length, every in-range index `i` and value
`v`, `setBit i v` succeeds, a following `getBit i` returns `v != 0`, and
every other in-range index `j` reads the same value as before the
mutation — also from a raw-only state, where the bits view is first
materialized. -/
theorem set_bit_get_bit_frame :
    ∀ (s : ReadBitsResponseBase) (i j : Nat) (v : Int),
      i < (ReadBitsResponseBase.bits_get s).1.length →
      j < (ReadBitsResponseBase.bits_get s).1.length →
      j ≠ i →
      ∃ (s' t₁ t₂ t₃ : ReadBitsResponseBase) (b : Bool),
        ReadBitsResponseBase.setBit s i v = some s' ∧
        ReadBitsResponseBase.getBit s' i = some (decide (v ≠ 0), t₁) ∧
        ReadBitsResponseBase.getBit s' j = some (b, t₂) ∧
        ReadBitsResponseBase.getBit s j = some (b, t₃) := by
  intro s i j v hi hj hne
  have hset : ReadBitsResponseBase.setBit s i v =
      some ⟨some ((ReadBitsResponseBase.bits_get s).1.set i (decide (v ≠ 0))), none,
            (ReadBitsResponseBase.bits_get s).2._byte_count⟩ := by
    simp only [ReadBitsResponseBase.setBit]
    rw [if_pos hi]
  have hbg' : ReadBitsResponseBase.bits_get
      ⟨some ((ReadBitsResponseBase.bits_get s).1.set i (decide (v ≠ 0))), none,
       (ReadBitsResponseBase.bits_get s).2._byte_count⟩ =
      ((ReadBitsResponseBase.bits_get s).1.set i (decide (v ≠ 0)),
       ⟨some ((ReadBitsResponseBase.bits_get s).1.set i (decide (v ≠ 0))), none,
        (ReadBitsResponseBase.bits_get s).2._byte_count⟩) :=
    bits_get_of_some _ _ rfl
  have hi' : i < ((ReadBitsResponseBase.bits_get s).1.set i (decide (v ≠ 0))).length := by
    simpa using hi
  have hj' : j < ((ReadBitsResponseBase.bits_get s).1.set i (decide (v ≠ 0))).length := by
    simpa using hj
  have hgi : ReadBitsResponseBase.getBit
      ⟨some ((ReadBitsResponseBase.bits_get s).1.set i (decide (v ≠ 0))), none,
       (ReadBitsResponseBase.bits_get s).2._byte_count⟩ i =
      some (decide (v ≠ 0),
        ⟨some ((ReadBitsResponseBase.bits_get s).1.set i (decide (v ≠ 0))), none,
         (ReadBitsResponseBase.bits_get s).2._byte_count⟩) := by
    simp only [ReadBitsResponseBase.getBit, hbg']
    rw [dif_pos hi']
    simp only [hbg', List.get_eq_getElem, List.getElem_set_self]
  have hgj' : ReadBitsResponseBase.getBit
      ⟨some ((ReadBitsResponseBase.bits_get s).1.set i (decide (v ≠ 0))), none,
       (ReadBitsResponseBase.bits_get s).2._byte_count⟩ j =
      some ((ReadBitsResponseBase.bits_get s).1.get ⟨j, hj⟩,
        ⟨some ((ReadBitsResponseBase.bits_get s).1.set i (decide (v ≠ 0))), none,
         (ReadBitsResponseBase.bits_get s).2._byte_count⟩) := by
    simp only [ReadBitsResponseBase.getBit, hbg']
    rw [dif_pos hj']
    simp only [hbg', List.get_eq_getElem, List.getElem_set_ne (Ne.symm hne)]
  have hgj : ReadBitsResponseBase.getBit s j =
      some ((ReadBitsResponseBase.bits_get s).1.get ⟨j, hj⟩,
        (ReadBitsResponseBase.bits_get s).2) := by
    simp only [ReadBitsResponseBase.getBit]
    rw [dif_pos hj]
  exact ⟨_, _, _, _, _, hset, hgi, hgj', hgj⟩

/-- C7 witness: a raw-only instance (`_raw_bits = b"\x05"`), mutating
index 1 with value 3 and checking the frame at index 0. -/
theorem set_bit_get_bit_frame_witness :
    ∃ (s' t₁ t₂ t₃ : ReadBitsResponseBase) (b : Bool),
      ReadBitsResponseBase.setBit ⟨none, some [5], none⟩ 1 3 = some s' ∧
      ReadBitsResponseBase.getBit s' 1 = some (decide ((3 : Int) ≠ 0), t₁) ∧
      ReadBitsResponseBase.getBit s' 0 = some (b, t₂) ∧
      ReadBitsResponseBase.getBit ⟨none, some [5], none⟩ 0 = some (b, t₃) :=
  set_bit_get_bit_frame ⟨none, some [5], none⟩ 1 0 3 (by decide) (by decide) (by decide)

/-- C8: whenever the raw representation has at most 255 bytes, `encode`
returns one byte-count byte followed by the raw bytes; concretely a
response built from `[true, false, true]` encodes to `0x01 0x05`. -/
theorem response_encode_format :
    (∀ s : ReadBitsResponseBase,
      (ReadBitsResponseBase.raw_bits_get s).1.length ≤ 255 →
      ReadBitsResponseBase.encode s =
        some ((ReadBitsResponseBase.raw_bits_get s).1.length ::
            (ReadBitsResponseBase.raw_bits_get s).1,
          (ReadBitsResponseBase.raw_bits_get s).2)) ∧
    ReadBitsResponseBase.ofValues (.pylist [.pybool true, .pybool false, .pybool true]) =
      some ⟨some [true, false, true], none, none⟩ ∧
    (∃ t, ReadBitsResponseBase.encode ⟨some [true, false, true], none, none⟩ =
      some ([1, 5], t)) := by
  refine ⟨?_, by decide, ⟨⟨some [true, false, true], some [5], none⟩, by decide⟩⟩
  intro s h
  simp only [ReadBitsResponseBase.encode]
  rw [if_pos h]

/-- C8 witness: the general format statement applied to the concrete
`[true, false, true]` response. -/
theorem response_encode_format_witness :
    ReadBitsResponseBase.encode ⟨some [true, false, true], none, none⟩ =
      some ((ReadBitsResponseBase.raw_bits_get
          ⟨some [true, false, true], none, none⟩).1.length ::
          (ReadBitsResponseBase.raw_bits_get ⟨some [true, false, true], none, none⟩).1,
        (ReadBitsResponseBase.raw_bits_get ⟨some [true, false, true], none, none⟩).2) :=
  response_encode_format.1 ⟨some [true, false, true], none, none⟩ (by decide)

/-- C9: the constructor discriminates once on the type of the first
element: `None` or an empty sequence leaves both representations unset; a
boolean/integer first element stores all elements, coerced to booleans,
as the bits view; a byte string is stored as the raw view; a float first
element raises `TypeError` and no instance is produced. -/
theorem construction_type_discrimination :
    ∀ (e : PyElem) (rest : List PyElem) (b : Nat) (bs : List Nat) (nz : Bool)
      (l : List PyElem),
      e.isBoolOrInt = true →
      ReadBitsResponseBase.ofValues .pynone = some ⟨none, none, none⟩ ∧
      ReadBitsResponseBase.ofValues (.pylist []) = some ⟨none, none, none⟩ ∧
      ReadBitsResponseBase.ofValues (.pybytes []) = some ⟨none, none, none⟩ ∧
      ReadBitsResponseBase.ofValues (.pylist (e :: rest)) =
        some ⟨some ((e :: rest).map PyElem.toBool), none, none⟩ ∧
      ReadBitsResponseBase.ofValues (.pybytes (b :: bs)) =
        some ⟨none, some (b :: bs), none⟩ ∧
      ReadBitsResponseBase.ofValues (.pylist (.pyfloat nz :: l)) = none := by
  intro e rest b bs nz l he
  refine ⟨rfl, rfl, rfl, ?_, rfl, ?_⟩
  · simp [ReadBitsResponseBase.ofValues, he]
  · simp [ReadBitsResponseBase.ofValues, PyElem.isBoolOrInt]

/-- C9 witness: an integer-led list, a byte string, and a float-led list
at concrete values. -/
theorem construction_type_discrimination_witness :
    ReadBitsResponseBase.ofValues .pynone = some ⟨none, none, none⟩ ∧
    ReadBitsResponseBase.ofValues (.pylist []) = some ⟨none, none, none⟩ ∧
    ReadBitsResponseBase.ofValues (.pybytes []) = some ⟨none, none, none⟩ ∧
    ReadBitsResponseBase.ofValues (.pylist (.pyint 2 :: [.pyint 0])) =
      some ⟨some ((PyElem.pyint 2 :: [.pyint 0]).map PyElem.toBool), none, none⟩ ∧
    ReadBitsResponseBase.ofValues (.pybytes (7 :: [])) = some ⟨none, some (7 :: []), none⟩ ∧
    ReadBitsResponseBase.ofValues (.pylist (.pyfloat true :: [])) = none :=
  construction_type_discrimination (.pyint 2) [.pyint 0] 7 [] true [] (by decide)

/-- C10: a successfully constructed response never has its byte-count
attribute assigned, so the first `byte_count` access on a fresh instance
raises `AttributeError` instead of returning `len(get_raw())`. -/
theorem fresh_byte_count_attribute_error :
    ∀ (values : PyValues) (s : ReadBitsResponseBase),
      ReadBitsResponseBase.ofValues values = some s →
      s._byte_count = none ∧ ReadBitsResponseBase.byte_count_get s = none := by
  intro values s h
  have hbc : s._byte_count = none := by
    cases values with
    | pynone =>
      simp only [ReadBitsResponseBase.ofValues, Option.some.injEq] at h
      subst h; rfl
    | pylist l =>
      cases l with
      | nil =>
        simp only [ReadBitsResponseBase.ofValues, Option.some.injEq] at h
        subst h; rfl
      | cons e rest =>
        simp only [ReadBitsResponseBase.ofValues] at h
        by_cases he : e.isBoolOrInt = true
        · rw [if_pos he] at h
          simp only [Option.some.injEq] at h
          subst h; rfl
        · rw [if_neg he] at h
          exact absurd h (by simp)
    | pybytes bs =>
      cases bs with
      | nil =>
        simp only [ReadBitsResponseBase.ofValues, Option.some.injEq] at h
        subst h; rfl
      | cons b tl =>
        simp only [ReadBitsResponseBase.ofValues, Option.some.injEq] at h
        subst h; rfl
  exact ⟨hbc, by simp [ReadBitsResponseBase.byte_count_get, hbc]⟩

/-- C10 witness: a response freshly constructed from the byte string
`b"\x03"`. -/
theorem fresh_byte_count_attribute_error_witness :
    (⟨none, some [3], none⟩ : ReadBitsResponseBase)._byte_count = none ∧
    ReadBitsResponseBase.byte_count_get ⟨none, some [3], none⟩ = none :=
  fresh_byte_count_attribute_error (.pybytes [3]) ⟨none, some [3], none⟩ (by decide)

end PyModbus
